import Mathlib

/-!
Shallow embedding of the press-clipping entity-resolution pipeline
(`scripts/pure_functions.py`, `scripts/parsing_functions.py`,
`scripts/xml_builder.py`) and proofs about it.

Network calls are modelled by passing the response (or a response oracle)
as an explicit argument; a raised `requests` exception is modelled as a
distinguished `networkError` constructor, and a Python function that can
propagate such an exception is embedded in the `Except Unit` monad.
Dates are modelled at day granularity as `(year, month, day)` triples,
matching the `"%Y-%m-%d"` strings the code parses and formats.
-/

namespace PressPure

/-- Calendar date `(year, month, day)`; `datetime` comparison on valid dates
is lexicographic on these components. -/
structure Date where
  y : Nat
  m : Nat
  d : Nat
deriving DecidableEq

/-- `a ≤ b` on dates, as Python's `datetime.__le__` (chronological order). -/
def dateLE (a b : Date) : Bool :=
  a.y.blt b.y || (a.y.beq b.y && (a.m.blt b.m || (a.m.beq b.m && a.d.ble b.d)))

/-- Zero-pad a number to two digits, as in `strftime("%m")` / `("%d")`. -/
def natPad2 (n : Nat) : String :=
  if n < 10 then "0" ++ toString n else toString n

/-- Zero-pad a number to four digits, as in `strftime("%Y")`. -/
def natPad4 (n : Nat) : String :=
  if n < 10 then "000" ++ toString n
  else if n < 100 then "00" ++ toString n
  else if n < 1000 then "0" ++ toString n
  else toString n

/-- `date.strftime("%Y-%m-%d")`. -/
def dateStrftime (d : Date) : String :=
  natPad4 d.y ++ "-" ++ natPad2 d.m ++ "-" ++ natPad2 d.d

/-- Python `str.lower()` on the ASCII fragment modelled here
(`Char.toLower` is the identity outside ASCII). -/
def lowerStr (s : String) : String :=
  String.mk (s.data.map Char.toLower)

/-- `s.split("T")[0]`: everything before the first `'T'`. -/
def beforeT (s : String) : String :=
  String.mk (s.data.takeWhile (fun c => c != 'T'))

/-- Python `str.strip()`: drop leading and trailing whitespace. -/
def pyStrip (s : String) : String :=
  String.mk (((s.data.dropWhile Char.isWhitespace).reverse.dropWhile
    Char.isWhitespace).reverse)

/-- Whitespace splitting on a character list, accumulating the current
(reversed) token. -/
def pySplitAux : List Char → List Char → List String
  | [], cur => if cur.isEmpty then [] else [String.mk cur.reverse]
  | c :: cs, cur =>
      if c.isWhitespace then
        if cur.isEmpty then pySplitAux cs []
        else String.mk cur.reverse :: pySplitAux cs []
      else pySplitAux cs (c :: cur)

/-- Python `s.split()`: split on whitespace runs, no empty pieces. -/
def pySplit (s : String) : List String :=
  pySplitAux s.data []

/-- `' '.join(l)`. -/
def joinSpace (l : List String) : String :=
  String.intercalate " " l

/-- Add an element to a list modelling a Python `set` under insertion order:
already-present elements are not added again. -/
def addUnique (acc : List String) (s : String) : List String :=
  if s ∈ acc then acc else acc ++ [s]

/-! ### The similarity score (`rapidfuzz.fuzz.ratio`)

`fuzz.ratio` is the normalized Indel similarity
`100 * (1 - dist/(|s1|+|s2|))` where the Indel distance equals
`|s1| + |s2| - 2 * lcs(s1, s2)`, so the score is `200 * lcs / (|s1|+|s2|)`.
We compute the LCS length with the standard dynamic-programming row
recurrence and return the score as an exact rational. -/

/-- One inner step of the LCS row update.  `prev` holds the tail of the
previous DP row aligned with the remaining `bs`; `cur` is the entry just
computed in the new row. -/
def lcsStep (a : Char) : List Char → List Nat → Nat → List Nat
  | b :: bs, p0 :: p1 :: ps, cur =>
      let nxt := if a == b then p0 + 1 else max cur p1
      nxt :: lcsStep a bs (p1 :: ps) nxt
  | _, _, _ => []

/-- Next DP row for LCS, given the previous row. -/
def lcsRow (a : Char) (bs : List Char) (prev : List Nat) : List Nat :=
  0 :: lcsStep a bs prev 0

/-- Length of a longest common subsequence. -/
def lcsLen (as bs : List Char) : Nat :=
  (as.foldl (fun prev a => lcsRow a bs prev) (List.replicate (bs.length + 1) 0)).getLastD 0

/-- `rapidfuzz.fuzz.ratio`, as an exact rational in `[0, 100]`. -/
def fuzz_score (s1 s2 : String) : ℚ :=
  let l1 := s1.length
  let l2 := s2.length
  if l1 + l2 = 0 then 100
  else (200 * (lcsLen s1.data s2.data) : ℚ) / (l1 + l2)

/-! ### Best-score tracking (`find_person`'s scoring loop)

The loop `if score > best_score: best_match, best_score = item, score`
starting from `best_match, best_score = None, 0`. -/

/-- The scoring loop from an arbitrary running best. -/
def track_best_aux {α : Type} (score : α → ℚ) : List α → Option α × ℚ → Option α × ℚ
  | [], best => best
  | x :: rest, best =>
      track_best_aux score rest (if score x > best.2 then (some x, score x) else best)

/-- The scoring loop of `find_person`: sequential max-tracking with a
strictly-greater replacement test, started at `(None, 0)`. -/
def track_best {α : Type} (score : α → ℚ) (l : List α) : Option α × ℚ :=
  track_best_aux score l (none, 0)

/-- The maximum score over a list, floored at the initial best score 0
(spec-side definition, used to state the tie-break behaviour). -/
def list_max_score {α : Type} (score : α → ℚ) (l : List α) : ℚ :=
  l.foldl (fun m x => max m (score x)) 0

/-- First element of the list attaining a given score
(spec-side definition: "ties keep the first-seen maximum"). -/
def first_hit {α : Type} (score : α → ℚ) (s : ℚ) : List α → Option α
  | [] => none
  | x :: rest => if score x = s then some x else first_hit score s rest

/-! ### Directory data model (`persons/search` response items)

Nested JSON paths are flattened into structure fields; a missing
optional field is modelled by a default (`""` / `none`). -/

/-- `name` / `names[].name` object: `{firstName, lastName}`. -/
structure NameRec where
  firstName : String := ""
  lastName : String := ""
deriving DecidableEq

/-- One entry of `identifiers`: `typeTerm` is `type.term.en_GB`
(`""` when the path is missing), `id` may be absent. -/
structure IdEntry where
  typeTerm : String := ""
  id : Option String := none
deriving DecidableEq

/-- `period` of a staff organization association; a missing `endDate`
is `none`. -/
structure Period where
  startDate : Date
  endDate : Option Date := none
deriving DecidableEq

/-- One entry of `staffOrganizationAssociations`: `orgUuid` is
`organization.uuid`. -/
structure StaffOrgAssoc where
  period : Period
  orgUuid : String
deriving DecidableEq

/-- One item of the directory search response. -/
structure Item where
  name : NameRec := {}
  names : List NameRec := []
  identifiers : List IdEntry := []
  staffOrganizationAssociations : List StaffOrgAssoc := []
  uuid : String := ""
deriving DecidableEq

/-- An affiliation dict `{"organization-uuid", "orgtype", "orgname"}`
built by `filter_affiliations`. -/
structure Affiliation where
  orgUuid : String
  orgtype : String
  orgname : String
deriving DecidableEq

/-- Result of the `organizations/{uuid}` lookup: either a raised
`requests` exception or a status code with the two read fields
(`type.uri` and `name.en_GB`). -/
inductive OrgResponse where
  | networkError
  | response (status : Nat) (typeUri : String) (nameEnGB : String)
deriving DecidableEq

/-- Result of the `persons/search` request: `failure` covers both a
raised exception and a non-2xx status (turned into an exception by
`raise_for_status`, caught by `find_person`'s `except`). -/
inductive SearchResponse where
  | failure
  | ok (items : List Item)

/-- Python truthiness of an optional string (`None` and `""` are falsy). -/
def isTruthy : Option String → Bool
  | none => false
  | some s => s != ""

/-- `uri.split("/")[-1]`: the suffix after the last `'/'`. -/
def lastSegment (s : String) : String :=
  String.mk ((s.data.reverse.takeWhile (fun c => c != '/')).reverse)

/-- `get_org_type`: classify an organization by its type URI.
On a non-200 status the code returns `("Unknown", "Unknown")`; a raised
transport exception (`networkError`) is NOT caught and propagates. -/
def get_org_type (orgApi : String → OrgResponse) (uuid : String) :
    Except Unit (String × String) :=
  match orgApi uuid with
  | .networkError => .error ()
  | .response status typeUri nameEnGB =>
      if status = 200 then
        let type_segment := lastSegment typeUri
        let org_type :=
          if type_segment.data.contains 'r' then "Research organization"
          else if "003".data.isPrefixOf type_segment.data
              || "004".data.isPrefixOf type_segment.data then "dep/fac"
          else "Organization"
        .ok (org_type, nameEnGB)
      else .ok ("Unknown", "Unknown")

/-- The far-future default for a missing `endDate`
(`datetime.strptime("9999-12-31", "%Y-%m-%d")`). -/
def farFuture : Date := ⟨9999, 12, 31⟩

/-- The loop of `filter_affiliations`, accumulating the kept
affiliations and the running `org_name`. -/
def filter_affiliations_aux (orgApi : String → OrgResponse) (date : Date) :
    List StaffOrgAssoc → List Affiliation → String → Except Unit (List Affiliation × String)
  | [], affiliations, org_name => .ok (affiliations, org_name)
  | org :: rest, affiliations, org_name =>
      let start_date := org.period.startDate
      let end_date := org.period.endDate.getD farFuture
      if dateLE start_date date && dateLE date end_date then
        match get_org_type orgApi org.orgUuid with
        | .error e => .error e
        | .ok (org_type, org_name2) =>
            filter_affiliations_aux orgApi date rest
              (affiliations ++ [⟨org.orgUuid, org_type, org_name2⟩]) org_name2
      else
        filter_affiliations_aux orgApi date rest affiliations org_name

/-- `filter_affiliations`: keep the associations whose validity interval
contains `date`, classifying each kept organization via `get_org_type`. -/
def filter_affiliations (orgApi : String → OrgResponse) (data : Item) (date : Date) :
    Except Unit (List Affiliation × String) :=
  filter_affiliations_aux orgApi date data.staffOrganizationAssociations [] ""

/-- The set `possible_names` of `find_person`: primary `"first last"`
spelling plus all alternate spellings, empty strings skipped.  The Python
`set` is modelled as an insertion-ordered duplicate-free list. -/
def possible_names (item : Item) : List String :=
  let full_name := pyStrip (item.name.firstName ++ " " ++ item.name.lastName)
  let base : List String := if full_name != "" then [full_name] else []
  item.names.foldl (fun acc alt =>
    let alt_name := pyStrip (alt.firstName ++ " " ++ alt.lastName)
    if alt_name != "" then addUnique acc alt_name else acc) base

/-- The identifier loop of `find_person`: the `id` of the first
`"Employee ID"`-typed identifier entry, if any. -/
def firstEmployeeId (item : Item) : Option String :=
  match item.identifiers.find? (fun e => e.typeTerm == "Employee ID") with
  | some e => e.id
  | none => none

/-- The tracked best `(result, spelling)` pair of `find_person` with its
score, over all results and all spellings. -/
def best_pair (name : String) (items : List Item) : Option (Item × String) × ℚ :=
  track_best (fun p : Item × String => fuzz_score (lowerStr name) (lowerStr p.2))
    (items.flatMap (fun it => (possible_names it).map (fun c => (it, c))))

/-- The 4-tuple returned by `find_person`:
`(employee_id, uuid, affiliations, org_name)`. -/
structure FindResult where
  employeeId : Option String
  uuid : Option String
  affiliations : List Affiliation
  orgName : String
deriving DecidableEq

/-- `(None, None, [], "")`, the NotFound shape of `find_person`. -/
def notFoundResult : FindResult := ⟨none, none, [], ""⟩

/-- `find_person`: search the directory, score the spellings, apply the
threshold, extract the Employee ID, filter affiliations.  The search
request's failure is caught (NotFound); a transport failure inside the
later org-type lookups is not caught and propagates. -/
def find_person (name : String) (date : Date) (searchApi : SearchResponse)
    (orgApi : String → OrgResponse) (threshold : ℚ := 95) : Except Unit FindResult :=
  match searchApi with
  | .failure => .ok notFoundResult
  | .ok items =>
      if items.isEmpty then .ok notFoundResult
      else
        let best := best_pair name items
        match best.1 with
        | none => .ok notFoundResult
        | some (best_match, _best_name) =>
            if best.2 < threshold then .ok notFoundResult
            else
              let employee_id := firstEmployeeId best_match
              if isTruthy employee_id then
                match filter_affiliations orgApi best_match date with
                | .error e => .error e
                | .ok (affiliations, org_name) =>
                    .ok ⟨employee_id, some best_match.uuid, affiliations, org_name⟩
              else .ok notFoundResult

/-! ### Batch coordination (`resolve_persons`) -/

/-- A resolved person `(person_id, uuid, original name, affiliations)`. -/
abbrev ResolvedPerson := String × Option String × String × List Affiliation

/-- `tuple(sorted(frozenset(a.items()) for a in affiliations))`.  Each
affiliation dict carries the same three keys, so each
`frozenset(a.items())` has exactly three elements (modelled by the
structure value) and two distinct such frozensets are never proper
subsets of one another.  Python's `sorted` compares frozensets with
`<` (proper subset), every comparison here returns `False`, and the
stable sort is the identity: the key keeps the affiliation list in its
original order, so the dedup key is order-sensitive. -/
def aff_key (affiliations : List Affiliation) : List Affiliation :=
  affiliations

/-- The batch dedup key `(person_id, aff_key)`. -/
def dedup_key (person_id : String) (affiliations : List Affiliation) :
    String × List Affiliation :=
  (person_id, aff_key affiliations)

/-- The loop of `resolve_persons`.  `find` abstracts `find_person`
applied to the shared session/API (it may propagate an exception from an
org-type lookup, which `resolve_persons` does not catch). -/
def resolve_persons_aux (find : String → Date → Except Unit FindResult) (date : Date) :
    List String → List ResolvedPerson → List (String × List Affiliation) → List String →
    Except Unit (List ResolvedPerson × List String)
  | [], resolved, _seen, errors => .ok (resolved, errors)
  | raw_name :: rest, resolved, seen, errors =>
      let name := pyStrip raw_name
      match find name date with
      | .error e => .error e
      | .ok r =>
          if isTruthy r.employeeId && !r.affiliations.isEmpty then
            let person_id := r.employeeId.getD ""
            let key := dedup_key person_id r.affiliations
            if key ∈ seen then
              resolve_persons_aux find date rest resolved seen errors
            else
              resolve_persons_aux find date rest
                (resolved ++ [(person_id, r.uuid, name, r.affiliations)])
                (seen ++ [key]) errors
          else
            resolve_persons_aux find date rest resolved seen (errors ++ [name])

/-- `resolve_persons`: resolve every candidate name, deduplicating by
`(person_id, aff_key)` and accumulating unresolved names as errors. -/
def resolve_persons (find : String → Date → Except Unit FindResult)
    (names : List String) (date : Date) :
    Except Unit (List ResolvedPerson × List String) :=
  resolve_persons_aux find date names [] [] []

/-! ### Title canonicalization (`escape_pure_text`) -/

/-- Unicode NFKC normalization, modelled as the identity: it is the
identity on the ASCII fragment covered by this embedding. -/
def nfkc (s : String) : String := s

/-- Python `str.casefold()`, which agrees with lower-casing on the ASCII
fragment covered by this embedding. -/
def casefold (s : String) : String := lowerStr s

/-- `html.unescape`, modelled for the five standard named/numeric
entities the escaper produces (`&amp; &lt; &gt; &quot; &#x27;`); other
entity names are left untouched. -/
def htmlUnescapeAux : List Char → List Char
  | '&' :: 'a' :: 'm' :: 'p' :: ';' :: rest => '&' :: htmlUnescapeAux rest
  | '&' :: 'l' :: 't' :: ';' :: rest => '<' :: htmlUnescapeAux rest
  | '&' :: 'g' :: 't' :: ';' :: rest => '>' :: htmlUnescapeAux rest
  | '&' :: 'q' :: 'u' :: 'o' :: 't' :: ';' :: rest => '"' :: htmlUnescapeAux rest
  | '&' :: '#' :: 'x' :: '2' :: '7' :: ';' :: rest => Char.ofNat 39 :: htmlUnescapeAux rest
  | c :: rest => c :: htmlUnescapeAux rest
  | [] => []

/-- `html.unescape` on strings. -/
def htmlUnescape (s : String) : String :=
  String.mk (htmlUnescapeAux s.data)

/-- `html.escape` with its default `quote=True`: escape `& < > "` and
the apostrophe. -/
def htmlEscape (s : String) : String :=
  String.mk (s.data.foldr (fun c acc =>
    if c == '&' then "&amp;".data ++ acc
    else if c == '<' then "&lt;".data ++ acc
    else if c == '>' then "&gt;".data ++ acc
    else if c == '"' then "&quot;".data ++ acc
    else if c == Char.ofNat 39 then "&#x27;".data ++ acc
    else c :: acc) [])

/-- `escape_pure_text`: unescape (preventing double encoding), NFKC
normalize, casefold, HTML-escape; optionally wrap in a paragraph. -/
def escape_pure_text (text : String) (wrap_paragraph : Bool := false) : String :=
  let t := htmlUnescape (pyStrip text)
  let escaped := htmlEscape (casefold (nfkc t))
  if wrap_paragraph then "<p>" ++ escaped ++ "</p>" else escaped

/-! ### Store-level duplicate check (`check_duplicates`) -/

/-- `personAssociations[].person`: the two optional identifier fields. -/
structure PriorPerson where
  externalId : Option String := none
  internalId : Option String := none
deriving DecidableEq

/-- One entry of `personAssociations`; the `person` key may be absent
(the code warns and continues). -/
structure PriorAssoc where
  person : Option PriorPerson := none
deriving DecidableEq

/-- A prior record from the `press-media` store:
`titleValue` is `title.text[0].value` and `startDate` is
`period.startDate` (possibly carrying a `"T..."` time suffix). -/
structure PriorItem where
  titleValue : String
  startDate : String
  personAssociations : List PriorAssoc := []
deriving DecidableEq

/-- The store's answer: a raised transport exception, or a status code
with the returned items. -/
inductive StoreResponse where
  | networkError
  | response (status : Nat) (items : List PriorItem)
deriving DecidableEq

/-- The `person_ids` set of one prior record: every truthy
`externalId` / `internalId` of its person associations. -/
def prior_person_ids (item : PriorItem) : List String :=
  item.personAssociations.foldl (fun acc assoc =>
    match assoc.person with
    | none => acc
    | some p =>
        let acc := match p.externalId with
          | some s => if s != "" then addUnique acc s else acc
          | none => acc
        match p.internalId with
        | some s => if s != "" then addUnique acc s else acc
        | none => acc) []

/-- The per-item duplicate test of `check_duplicates`: canonicalized
titles equal, date portions equal, and some resolved person's
identifier among the record's person identifiers. -/
def is_dup_item (title : String) (persons : List ResolvedPerson) (date : Date)
    (item : PriorItem) : Bool :=
  let item_title := lowerStr item.titleValue
  let item_date_str := beforeT item.startDate
  let person_ids := prior_person_ids item
  let escaped_input := escape_pure_text title
  let escaped_existing := escape_pure_text item_title
  (escaped_input == escaped_existing && item_date_str == dateStrftime date)
    && persons.any (fun p => person_ids.contains p.1)

/-- `check_duplicates`: query the store (the `"°"`-stripped query string
only affects which items come back, here given as the response); a
non-200 status yields `False`; a raised transport exception is NOT
caught and propagates. -/
def check_duplicates (title : String) (persons : List ResolvedPerson) (date : Date)
    (storeApi : StoreResponse) : Except Unit Bool :=
  match storeApi with
  | .networkError => .error ()
  | .response status items =>
      if status ≠ 200 then .ok false
      else .ok (items.any (is_dup_item title persons date))

/-! ### XML batch dedup (`xml_builder.py`)

A clipping is modelled by the fields `remove_duplicates` reads (the
media-reference title and the person element ids) plus the fields that
show what the dedup key is NOT made of (url, date).  Serialization,
generated element ids and timestamps are omitted: they do not influence
`remove_duplicates`. -/

/-- The parts of one `clipping` element relevant to deduplication. -/
structure XClipping where
  title : String
  date : Date
  personIds : List String
  url : Option String
deriving DecidableEq

/-- An input article row as consumed by `build_xml`. -/
structure Article where
  title : String
  url : String
  datum : Date
  person_resolved : List ResolvedPerson := []
deriving DecidableEq

/-- `make_single_clipping`: the clipping carries the article title and
date, one person element per resolved person (attribute `id` =
`person_id`), and a url element only when the URL is truthy. -/
def make_single_clipping (article : Article) : XClipping :=
  { title := article.title
    date := article.datum
    personIds := article.person_resolved.map (fun p => p.1)
    url := if article.url != "" then some article.url else none }

/-- The dedup key of `remove_duplicates`: `(title.lower(), person_ids)`. -/
def clip_key (c : XClipping) : String × List String :=
  (lowerStr c.title, c.personIds)

/-- The loop of `remove_duplicates`: drop a clipping whose key was
already seen, keep the first occurrence. -/
def remove_duplicates_aux : List XClipping → List (String × List String) → List XClipping
  | [], _ => []
  | c :: rest, seen =>
      let key := clip_key c
      if key ∈ seen then remove_duplicates_aux rest seen
      else c :: remove_duplicates_aux rest (key :: seen)

/-- `remove_duplicates` on the clipping list. -/
def remove_duplicates (clippings : List XClipping) : List XClipping :=
  remove_duplicates_aux clippings []

/-- `build_xml` up to serialization: one clipping per article, then the
duplicate-removal pass. -/
def build_xml (articles : List Article) : List XClipping :=
  remove_duplicates (articles.map make_single_clipping)

/-- Spec-side reference: keep each clipping whose `clip_key` has not
occurred earlier in the list ("deduplicate keeping the first
occurrence"). -/
def keep_first_occurrences (l : List XClipping) : List XClipping :=
  l.foldl (fun acc c => if clip_key c ∈ acc.map clip_key then acc else acc ++ [c]) []

/-! ### Candidate-name post-processing (`parsing_functions.extract_persons`)

Steps 1-3 (HTML heuristics) produce a raw candidate set from the markup
block; the block parsing itself is an external collaborator, so the raw
candidate list is universally quantified here.  The two suppression
passes and the cleanup pass are embedded faithfully. -/

/-- The hard-coded excluded names. -/
def blacklist_names : List String := ["Anton Pijpers", "David Beverborg"]

/-- Is `token` (case-insensitively) a token of some name in
`full_names`? -/
def single_token_suppressed (full_names : List String) (token : String) : Bool :=
  full_names.any (fun fn => (pySplit fn).any (fun p => lowerStr p == lowerStr token))

/-- Keep-test of the first suppression pass (step 4): drop blacklisted
names, empty token lists, and single tokens occurring inside a
multi-word name. -/
def first_keep (full_names : List String) (name : String) : Bool :=
  if blacklist_names.any (fun b => lowerStr b == lowerStr name) then false
  else
    match pySplit name with
    | [] => false
    | [t] => !single_token_suppressed full_names t
    | _ => true

/-- The first suppression pass over the raw candidate list
(`full_names` are the multi-word members of the same list). -/
def first_suppression (persons_list : List String) : List String :=
  persons_list.foldl (fun acc name =>
    if first_keep (persons_list.filter (fun n => (pySplit n).length > 1)) name
    then addUnique acc name else acc) []

/-- `clean_names`: apply the configured substring cleanup (abstracted as
`subst`, the configured regex substitutions plus strip), normalize
whitespace, drop empties. -/
def clean_names (subst : String → String) (name_set : List String) : List String :=
  name_set.foldl (fun acc name =>
    let cleaned_name := joinSpace (pySplit (subst name))
    if cleaned_name != "" then addUnique acc cleaned_name else acc) []

/-- Keep-test of the final suppression pass: drop single tokens
occurring inside a multi-word name. -/
def final_keep (full_names : List String) (n : String) : Bool :=
  match pySplit n with
  | [t] => !single_token_suppressed full_names t
  | _ => true

/-- The final suppression pass (`full_names` are the multi-word members
of the same list). -/
def final_suppression (final_list : List String) : List String :=
  final_list.foldl (fun acc n =>
    if final_keep (final_list.filter (fun x => (pySplit x).length > 1)) n
    then addUnique acc n else acc) []

/-- `extract_persons` from the union of the heuristics' outputs onward:
first suppression, cleanup, final suppression. -/
def extract_persons_post (subst : String → String) (raw_candidates : List String) :
    List String :=
  final_suppression (clean_names subst (first_suppression raw_candidates))

/-! ### Concrete instances used by witnesses and counterexamples -/

/-- A directory item spelled "John Smith" carrying an Employee ID. -/
def jsItem : Item :=
  { name := { firstName := "John", lastName := "Smith" }
    identifiers := [{ typeTerm := "Employee ID", id := some "E1" }]
    uuid := "u-1" }

/-- A directory item spelled "Jon Smith" carrying an Employee ID. -/
def jsItemExact : Item :=
  { name := { firstName := "Jon", lastName := "Smith" }
    identifiers := [{ typeTerm := "Employee ID", id := some "E1" }]
    uuid := "u-1" }

/-- An organization lookup oracle that always answers 200 with a
department-type URI. -/
def exOrgApi : String → OrgResponse := fun _ => .response 200 "/x/003abc" "Dept"

/-- An organization lookup oracle that always raises (transport error). -/
def neOrgApi : String → OrgResponse := fun _ => .networkError

/-- A directory item with two associations: org `"X"` valid
2020-01-01..2021-01-01 and org `"Y"` valid from 2021-01-02 with no end. -/
def exItemAff : Item :=
  { staffOrganizationAssociations :=
      [ ⟨⟨⟨2020, 1, 1⟩, some ⟨2021, 1, 1⟩⟩, "X"⟩,
        ⟨⟨⟨2021, 1, 2⟩, none⟩, "Y"⟩ ] }

/-- A prior store record titled "Hello" dated 2024-03-05 with person
identifier `"P1"`. -/
def exPriorItem : PriorItem :=
  { titleValue := "Hello"
    startDate := "2024-03-05T00:00"
    personAssociations := [{ person := some { externalId := some "P1" } }] }

/-- A `find_person` oracle resolving only "Ann Smith". -/
def exFind : String → Date → Except Unit FindResult := fun n _ =>
  if n = "Ann Smith" then
    .ok ⟨some "P1", some "U1", [⟨"org1", "Organization", "Uni"⟩], "Uni"⟩
  else .ok notFoundResult

/-- A `find_person` oracle resolving "Carl Jones" without any
date-valid affiliation. -/
def exFindNoAff : String → Date → Except Unit FindResult := fun n _ =>
  if n = "Carl Jones" then .ok ⟨some "P2", some "U2", [], ""⟩
  else .ok notFoundResult

/-- A first affiliation value. -/
def aff1 : Affiliation := ⟨"org1", "Organization", "Uni"⟩

/-- A second affiliation value. -/
def aff2 : Affiliation := ⟨"org2", "dep/fac", "Dept"⟩

/-- A `find_person` oracle resolving two different candidate spellings
to the SAME identity `"P1"` with the same two affiliations in
opposite list orders. -/
def exFindPermuted : String → Date → Except Unit FindResult := fun n _ =>
  if n = "Ann Smith" then .ok ⟨some "P1", some "U1", [aff1, aff2], "Uni"⟩
  else if n = "A. Smith" then .ok ⟨some "P1", some "U1", [aff2, aff1], "Dept"⟩
  else .ok notFoundResult

/-- An article titled "T" at URL "U" resolved to person "P1". -/
def cexArticle1 : Article :=
  { title := "T", url := "U", datum := ⟨2024, 1, 1⟩
    person_resolved := [("P1", none, "Ann", [])] }

/-- The same title and URL as `cexArticle1`, resolved to person "P2". -/
def cexArticle2 : Article :=
  { title := "T", url := "U", datum := ⟨2024, 1, 1⟩
    person_resolved := [("P2", none, "Bob", [])] }

/-- Like `cexArticle1` but at a different URL, with the title in a
different letter case. -/
def cexArticle3 : Article :=
  { title := "t", url := "other", datum := ⟨2024, 1, 1⟩
    person_resolved := [("P1", none, "Ann", [])] }

/-- Like `cexArticle1` but at a different URL. -/
def cexArticle4 : Article :=
  { title := "T", url := "other", datum := ⟨2024, 1, 1⟩
    person_resolved := [("P1", none, "Ann", [])] }

/-! ## Lemmas -/

lemma foldl_max_start_le {α : Type} (score : α → ℚ) (l : List α) :
    ∀ s : ℚ, s ≤ l.foldl (fun m x => max m (score x)) s := by
  induction l with
  | nil => intro s; simp
  | cons x rest ih =>
      intro s
      simpa using le_trans (le_max_left s (score x)) (ih (max s (score x)))

lemma track_best_aux_eq {α : Type} (score : α → ℚ) (l : List α) :
    ∀ (b : Option α) (s : ℚ),
    track_best_aux score l (b, s) =
      ((if s = l.foldl (fun m x => max m (score x)) s then b
        else first_hit score (l.foldl (fun m x => max m (score x)) s) l),
       l.foldl (fun m x => max m (score x)) s) := by
  induction l with
  | nil => intro b s; simp [track_best_aux]
  | cons x rest ih =>
      intro b s
      have step : track_best_aux score (x :: rest) (b, s) =
          track_best_aux score rest (if score x > s then (some x, score x) else (b, s)) := rfl
      have hitstep : ∀ v : ℚ, first_hit score v (x :: rest) =
          if score x = v then some x else first_hit score v rest := fun _ => rfl
      by_cases h : score x > s
      · have hmax : max s (score x) = score x := max_eq_right (le_of_lt h)
        have hne : s ≠ rest.foldl (fun m x => max m (score x)) (score x) :=
          ne_of_lt (lt_of_lt_of_le h (foldl_max_start_le score rest _))
        rw [step, if_pos h, ih (some x) (score x), List.foldl_cons, hmax, if_neg hne, hitstep]
      · have hle : score x ≤ s := le_of_not_lt h
        have hmax : max s (score x) = s := max_eq_left hle
        rw [step, if_neg h, ih b s, List.foldl_cons, hmax, hitstep]
        by_cases hs : s = rest.foldl (fun m x => max m (score x)) s
        · simp only [if_pos hs]
        · have hxm : score x ≠ rest.foldl (fun m x => max m (score x)) s :=
            ne_of_lt (lt_of_le_of_lt hle
              (lt_of_le_of_ne (foldl_max_start_le score rest s) hs))
          simp only [if_neg hs, if_neg hxm]

lemma first_hit_eq_none_iff {α : Type} (score : α → ℚ) (v : ℚ) :
    ∀ l : List α, first_hit score v l = none ↔ ∀ x ∈ l, score x ≠ v := by
  intro l
  induction l with
  | nil => simp [first_hit]
  | cons x rest ih =>
      by_cases hx : score x = v
      · simp [first_hit, hx]
      · simp [first_hit, hx, ih]

lemma foldl_max_attained {α : Type} (score : α → ℚ) (l : List α) :
    ∀ s : ℚ, l.foldl (fun m x => max m (score x)) s = s ∨
      ∃ x ∈ l, score x = l.foldl (fun m x => max m (score x)) s := by
  induction l with
  | nil => intro s; exact Or.inl rfl
  | cons x rest ih =>
      intro s
      rw [List.foldl_cons]
      rcases ih (max s (score x)) with h | ⟨y, hy, hsy⟩
      · rcases max_choice s (score x) with hm | hm
        · exact Or.inl (by rw [h, hm])
        · exact Or.inr ⟨x, List.mem_cons_self x rest, by rw [h, hm]⟩
      · exact Or.inr ⟨y, List.mem_cons_of_mem x hy, hsy⟩

lemma find_person_ok_unfold (name : String) (date : Date) (items : List Item)
    (orgApi : String → OrgResponse) :
    find_person name date (.ok items) orgApi =
      if items.isEmpty then .ok notFoundResult
      else
        match (best_pair name items).1 with
        | none => .ok notFoundResult
        | some (best_match, _best_name) =>
            if (best_pair name items).2 < 95 then .ok notFoundResult
            else
              if isTruthy (firstEmployeeId best_match) then
                match filter_affiliations orgApi best_match date with
                | .error e => .error e
                | .ok (affiliations, org_name) =>
                    .ok ⟨firstEmployeeId best_match, some best_match.uuid,
                      affiliations, org_name⟩
              else .ok notFoundResult := rfl

lemma truthy_ne_notFound (eid : Option String) (h : isTruthy eid = true)
    (u : Option String) (affs : List Affiliation) (nm : String) :
    (⟨eid, u, affs, nm⟩ : FindResult) ≠ notFoundResult := by
  intro he
  have : eid = none := congrArg FindResult.employeeId he
  rw [this] at h
  simp [isTruthy] at h

lemma track_best_none {α : Type} (score : α → ℚ) (l : List α)
    (h : (track_best score l).1 = none) : (track_best score l).2 = 0 := by
  unfold track_best at h ⊢
  rw [track_best_aux_eq] at h ⊢
  by_cases h0 : (0 : ℚ) = l.foldl (fun m x => max m (score x)) 0
  · exact h0.symm
  · exfalso
    rw [if_neg h0] at h
    simp only at h
    have hall := (first_hit_eq_none_iff score _ l).mp h
    rcases foldl_max_attained score l 0 with hm | ⟨x, hx, hsx⟩
    · exact h0 hm.symm
    · exact hall x hx hsx

lemma best_pair_fst_none (name : String) (items : List Item)
    (h : (best_pair name items).1 = none) : (best_pair name items).2 = 0 := by
  unfold best_pair at h ⊢
  exact track_best_none _ _ h

lemma get_org_type_response (orgApi : String → OrgResponse) (u : String)
    (s : Nat) (uri nm : String) (hresp : orgApi u = .response s uri nm) :
    get_org_type orgApi u =
      if s = 200 then
        .ok ((if (lastSegment uri).data.contains 'r' then "Research organization"
          else if "003".data.isPrefixOf (lastSegment uri).data
              || "004".data.isPrefixOf (lastSegment uri).data then "dep/fac"
          else "Organization"), nm)
      else .ok ("Unknown", "Unknown") := by
  unfold get_org_type
  rw [hresp]

lemma get_org_type_ok (orgApi : String → OrgResponse) (u : String)
    (h : orgApi u ≠ .networkError) : ∃ p, get_org_type orgApi u = .ok p := by
  cases horg : orgApi u with
  | networkError => exact absurd horg h
  | response s uri nm =>
      rw [get_org_type_response orgApi u s uri nm horg]
      by_cases hs : s = 200
      · exact ⟨_, by rw [if_pos hs]⟩
      · exact ⟨_, by rw [if_neg hs]⟩

lemma filter_affiliations_aux_spec (orgApi : String → OrgResponse) (date : Date)
    (h : ∀ u, orgApi u ≠ .networkError) :
    ∀ (assocs : List StaffOrgAssoc) (acc : List Affiliation) (nm : String),
    ∃ out : List Affiliation × String,
      filter_affiliations_aux orgApi date assocs acc nm = .ok out ∧
      out.1.map (fun a => a.orgUuid) = acc.map (fun a => a.orgUuid) ++
        (assocs.filter (fun o => dateLE o.period.startDate date &&
          dateLE date (o.period.endDate.getD farFuture))).map (fun o => o.orgUuid) := by
  intro assocs
  induction assocs with
  | nil => intro acc nm; exact ⟨(acc, nm), rfl, by simp⟩
  | cons o rest ih =>
      intro acc nm
      have hstep : filter_affiliations_aux orgApi date (o :: rest) acc nm =
          if dateLE o.period.startDate date &&
              dateLE date (o.period.endDate.getD farFuture) then
            match get_org_type orgApi o.orgUuid with
            | .error e => .error e
            | .ok (ty, nm2) =>
                filter_affiliations_aux orgApi date rest
                  (acc ++ [⟨o.orgUuid, ty, nm2⟩]) nm2
          else filter_affiliations_aux orgApi date rest acc nm := rfl
      by_cases hd : (dateLE o.period.startDate date &&
          dateLE date (o.period.endDate.getD farFuture)) = true
      · obtain ⟨⟨ty, nm2⟩, hg⟩ := get_org_type_ok orgApi o.orgUuid (h _)
        obtain ⟨out, h1, h2⟩ := ih (acc ++ [⟨o.orgUuid, ty, nm2⟩]) nm2
        refine ⟨out, ?_, ?_⟩
        · rw [hstep, if_pos hd, hg]
          exact h1
        · rw [h2, List.filter_cons, if_pos hd]
          simp
      · obtain ⟨out, h1, h2⟩ := ih acc nm
        refine ⟨out, ?_, ?_⟩
        · rw [hstep, if_neg hd]
          exact h1
        · rw [h2, List.filter_cons, if_neg hd]

lemma check_duplicates_response (title : String) (persons : List ResolvedPerson)
    (date : Date) (status : Nat) (items : List PriorItem) :
    check_duplicates title persons date (.response status items) =
      if status ≠ 200 then .ok false
      else .ok (items.any (is_dup_item title persons date)) := rfl

lemma resolve_persons_aux_step (find : String → Date → Except Unit FindResult)
    (date : Date) (raw_name : String) (rest : List String)
    (resolved : List ResolvedPerson) (seen : List (String × List Affiliation))
    (errors : List String) :
    resolve_persons_aux find date (raw_name :: rest) resolved seen errors =
      match find (pyStrip raw_name) date with
      | .error e => .error e
      | .ok r =>
          if isTruthy r.employeeId && !r.affiliations.isEmpty then
            if dedup_key (r.employeeId.getD "") r.affiliations ∈ seen then
              resolve_persons_aux find date rest resolved seen errors
            else
              resolve_persons_aux find date rest
                (resolved ++ [(r.employeeId.getD "", r.uuid, pyStrip raw_name,
                  r.affiliations)])
                (seen ++ [dedup_key (r.employeeId.getD "") r.affiliations]) errors
          else
            resolve_persons_aux find date rest resolved seen
              (errors ++ [pyStrip raw_name]) := rfl

lemma resolve_persons_aux_step_ok (find : String → Date → Except Unit FindResult)
    (date : Date) (raw_name : String) (rest : List String)
    (resolved : List ResolvedPerson) (seen : List (String × List Affiliation))
    (errors : List String) (r : FindResult)
    (hfind : find (pyStrip raw_name) date = .ok r) :
    resolve_persons_aux find date (raw_name :: rest) resolved seen errors =
      if isTruthy r.employeeId && !r.affiliations.isEmpty then
        if dedup_key (r.employeeId.getD "") r.affiliations ∈ seen then
          resolve_persons_aux find date rest resolved seen errors
        else
          resolve_persons_aux find date rest
            (resolved ++ [(r.employeeId.getD "", r.uuid, pyStrip raw_name,
              r.affiliations)])
            (seen ++ [dedup_key (r.employeeId.getD "") r.affiliations]) errors
      else
        resolve_persons_aux find date rest resolved seen
          (errors ++ [pyStrip raw_name]) := by
  rw [resolve_persons_aux_step, hfind]

lemma resolve_persons_aux_step_error (find : String → Date → Except Unit FindResult)
    (date : Date) (raw_name : String) (rest : List String)
    (resolved : List ResolvedPerson) (seen : List (String × List Affiliation))
    (errors : List String) (e : Unit)
    (hfind : find (pyStrip raw_name) date = .error e) :
    resolve_persons_aux find date (raw_name :: rest) resolved seen errors =
      .error e := by
  rw [resolve_persons_aux_step, hfind]

lemma resolve_persons_aux_inv (find : String → Date → Except Unit FindResult)
    (date : Date) :
    ∀ (names : List String) (resolved : List ResolvedPerson)
      (seen : List (String × List Affiliation)) (errors : List String)
      (outR : List ResolvedPerson) (outE : List String),
    resolve_persons_aux find date names resolved seen errors = .ok (outR, outE) →
    (∀ p ∈ resolved, p.2.2.2 ≠ [] ∧ dedup_key p.1 p.2.2.2 ∈ seen) →
    (resolved.map (fun p => dedup_key p.1 p.2.2.2)).Nodup →
    (∀ p ∈ outR, p.2.2.2 ≠ []) ∧
      (outR.map (fun p => dedup_key p.1 p.2.2.2)).Nodup := by
  intro names
  induction names with
  | nil =>
      intro resolved seen errors outR outE h hmem hnodup
      have h2 : resolved = outR := congrArg Prod.fst (Except.ok.inj h)
      subst h2
      exact ⟨fun p hp => (hmem p hp).1, hnodup⟩
  | cons raw rest ih =>
      intro resolved seen errors outR outE h hmem hnodup
      cases hfind : find (pyStrip raw) date with
      | error e =>
          rw [resolve_persons_aux_step_error find date raw rest resolved seen errors
            e hfind] at h
          exact absurd h (by simp)
      | ok r =>
          rw [resolve_persons_aux_step_ok find date raw rest resolved seen errors
            r hfind] at h
          by_cases hc : (isTruthy r.employeeId && !r.affiliations.isEmpty) = true
          · rw [if_pos hc] at h
            by_cases hk : dedup_key (r.employeeId.getD "") r.affiliations ∈ seen
            · rw [if_pos hk] at h
              exact ih resolved seen errors outR outE h hmem hnodup
            · rw [if_neg hk] at h
              have haff : r.affiliations ≠ [] := by
                intro he
                rw [he] at hc
                simp [Bool.and_eq_true] at hc
              refine ih _ _ _ outR outE h ?_ ?_
              · intro p hp
                rcases List.mem_append.mp hp with hold | hnew
                · exact ⟨(hmem p hold).1,
                    List.mem_append.mpr (Or.inl (hmem p hold).2)⟩
                · have hpe : p = (r.employeeId.getD "", r.uuid, pyStrip raw,
                      r.affiliations) := List.mem_singleton.mp hnew
                  subst hpe
                  exact ⟨haff, List.mem_append.mpr (Or.inr (List.mem_singleton.mpr rfl))⟩
              · rw [List.map_append]
                rw [List.nodup_append]
                refine ⟨hnodup, by simp, ?_⟩
                intro k hkmem
                have : k ∈ seen := by
                  rcases List.mem_map.mp hkmem with ⟨p, hp, hkey⟩
                  rw [← hkey]
                  exact (hmem p hp).2
                simp only [List.map_cons, List.map_nil, List.mem_singleton]
                intro hEq
                rw [hEq] at this
                exact hk this
          · rw [if_neg hc] at h
            exact ih resolved seen _ outR outE h hmem hnodup

lemma mem_addUnique (acc : List String) (s x : String)
    (h : x ∈ addUnique acc s) : x ∈ acc ∨ x = s := by
  unfold addUnique at h
  by_cases hs : s ∈ acc
  · rw [if_pos hs] at h
    exact Or.inl h
  · rw [if_neg hs] at h
    rcases List.mem_append.mp h with h1 | h1
    · exact Or.inl h1
    · exact Or.inr (List.mem_singleton.mp h1)

lemma foldl_keep_mem (keep : String → Bool) :
    ∀ (L acc : List String) (x : String),
    x ∈ L.foldl (fun acc2 n => if keep n then addUnique acc2 n else acc2) acc →
    x ∈ acc ∨ (x ∈ L ∧ keep x = true) := by
  intro L
  induction L with
  | nil => intro acc x h; exact Or.inl h
  | cons n rest ih =>
      intro acc x h
      rw [List.foldl_cons] at h
      rcases ih _ x h with h1 | ⟨h1, h2⟩
      · by_cases hk : keep n = true
        · rw [if_pos hk] at h1
          rcases mem_addUnique acc n x h1 with h2 | h2
          · exact Or.inl h2
          · subst h2
            exact Or.inr ⟨List.mem_cons_self x rest, hk⟩
        · rw [if_neg hk] at h1
          exact Or.inl h1
      · exact Or.inr ⟨List.mem_cons_of_mem n h1, h2⟩

lemma rd_aux_sublist :
    ∀ (l : List XClipping) (seen : List (String × List String)),
    (remove_duplicates_aux l seen).Sublist l := by
  intro l
  induction l with
  | nil => intro seen; exact List.Sublist.refl []
  | cons c rest ih =>
      intro seen
      unfold remove_duplicates_aux
      by_cases hk : clip_key c ∈ seen
      · rw [if_pos hk]
        exact (ih seen).trans (List.sublist_cons_self c rest)
      · rw [if_neg hk]
        exact (ih (clip_key c :: seen)).cons₂ c

lemma rd_aux_keys :
    ∀ (l : List XClipping) (seen : List (String × List String)),
    ((remove_duplicates_aux l seen).map clip_key).Nodup ∧
      ∀ c ∈ remove_duplicates_aux l seen, clip_key c ∉ seen := by
  intro l
  induction l with
  | nil => intro seen; exact ⟨List.nodup_nil, by simp [remove_duplicates_aux]⟩
  | cons c rest ih =>
      intro seen
      unfold remove_duplicates_aux
      by_cases hk : clip_key c ∈ seen
      · rw [if_pos hk]
        exact ih seen
      · rw [if_neg hk]
        obtain ⟨ihN, ihS⟩ := ih (clip_key c :: seen)
        refine ⟨?_, ?_⟩
        · rw [List.map_cons, List.nodup_cons]
          refine ⟨?_, ihN⟩
          intro hc
          rcases List.mem_map.mp hc with ⟨d, hd, hkey⟩
          exact ihS d hd (hkey ▸ List.mem_cons_self _ _)
        · intro d hd
          rcases List.mem_cons.mp hd with h1 | h1
          · subst h1; exact hk
          · exact fun hmem => ihS d h1 (List.mem_cons_of_mem _ hmem)

lemma rd_aux_cover :
    ∀ (l : List XClipping) (seen : List (String × List String)) (c : XClipping),
    c ∈ l →
    clip_key c ∈ seen ∨
      ∃ d ∈ remove_duplicates_aux l seen, clip_key d = clip_key c := by
  intro l
  induction l with
  | nil => intro seen c hc; exact absurd hc (List.not_mem_nil c)
  | cons x rest ih =>
      intro seen c hc
      unfold remove_duplicates_aux
      rcases List.mem_cons.mp hc with h1 | h1
      · subst h1
        by_cases hk : clip_key c ∈ seen
        · exact Or.inl hk
        · rw [if_neg hk]
          exact Or.inr ⟨c, List.mem_cons_self _ _, rfl⟩
      · by_cases hk : clip_key x ∈ seen
        · rw [if_pos hk]
          exact ih seen c h1
        · rw [if_neg hk]
          rcases ih (clip_key x :: seen) c h1 with h2 | ⟨d, hd, hkey⟩
          · rcases List.mem_cons.mp h2 with h3 | h3
            · exact Or.inr ⟨x, List.mem_cons_self _ _, h3.symm⟩
            · exact Or.inl h3
          · exact Or.inr ⟨d, List.mem_cons_of_mem _ hd, hkey⟩

lemma rd_aux_eq_fold :
    ∀ (l : List XClipping) (seen : List (String × List String))
      (acc : List XClipping),
    (∀ k, k ∈ seen ↔ k ∈ acc.map clip_key) →
    acc ++ remove_duplicates_aux l seen =
      l.foldl (fun acc2 c =>
        if clip_key c ∈ acc2.map clip_key then acc2 else acc2 ++ [c]) acc := by
  intro l
  induction l with
  | nil => intro seen acc hEquiv; simp [remove_duplicates_aux]
  | cons c rest ih =>
      intro seen acc hEquiv
      rw [List.foldl_cons]
      unfold remove_duplicates_aux
      by_cases hk : clip_key c ∈ seen
      · rw [if_pos hk, if_pos ((hEquiv _).mp hk)]
        exact ih seen acc hEquiv
      · rw [if_neg hk, if_neg (fun hmem => hk ((hEquiv _).mpr hmem))]
        have hstep : acc ++ c :: remove_duplicates_aux rest (clip_key c :: seen) =
            (acc ++ [c]) ++ remove_duplicates_aux rest (clip_key c :: seen) := by
          simp
        rw [hstep]
        refine ih (clip_key c :: seen) (acc ++ [c]) ?_
        intro k
        rw [List.mem_cons, List.map_append, List.mem_append]
        constructor
        · rintro (h1 | h1)
          · exact Or.inr (by simp [h1])
          · exact Or.inl ((hEquiv k).mp h1)
        · rintro (h1 | h1)
          · exact Or.inr ((hEquiv k).mpr h1)
          · exact Or.inl (by simpa using h1)

lemma track_best_single {α : Type} (score : α → ℚ) (x : α) (h : 0 < score x) :
    track_best score [x] = (some x, score x) := by
  have hstep : track_best score [x] =
      if score x > 0 then (some x, score x) else (none, 0) := rfl
  rw [hstep, if_pos h]

lemma best_pair_single (name : String) (it : Item) (c : String)
    (h : possible_names it = [c])
    (hpos : 0 < fuzz_score (lowerStr name) (lowerStr c)) :
    best_pair name [it] = (some (it, c), fuzz_score (lowerStr name) (lowerStr c)) := by
  unfold best_pair
  have hl : ([it].flatMap (fun it2 => (possible_names it2).map (fun c2 => (it2, c2)))) =
      [(it, c)] := by
    simp [h]
  rw [hl]
  exact track_best_single _ _ hpos

lemma fuzz_jon_john :
    fuzz_score (lowerStr "Jon Smith") (lowerStr "John Smith") = 1800 / 19 := by
  have h1 : lowerStr "Jon Smith" = "jon smith" := by decide
  have h2 : lowerStr "John Smith" = "john smith" := by decide
  have h9 : lcsLen ("jon smith").data ("john smith").data = 9 := by decide
  have hL1 : ("jon smith").length = 9 := by decide
  have hL2 : ("john smith").length = 10 := by decide
  rw [h1, h2]
  simp only [fuzz_score, h9, hL1, hL2]
  norm_num

lemma fuzz_jon_jon :
    fuzz_score (lowerStr "Jon Smith") (lowerStr "Jon Smith") = 100 := by
  have h1 : lowerStr "Jon Smith" = "jon smith" := by decide
  have h9 : lcsLen ("jon smith").data ("jon smith").data = 9 := by decide
  have hL1 : ("jon smith").length = 9 := by decide
  rw [h1]
  simp only [fuzz_score, h9, hL1]
  norm_num

/-! ## Claim theorems -/

/-- C7: the similarity-scoring loop replaces the tracked best only on a
strictly greater score, so over any scored list it returns exactly the
maximal score together with the FIRST element attaining it (first-seen
wins on ties), or `none` when no element beats the initial score 0. -/
theorem claim_C7_first_seen_tie_break {α : Type} (score : α → ℚ) (l : List α) :
    track_best score l =
      ((if (0 : ℚ) = list_max_score score l then none
        else first_hit score (list_max_score score l) l),
       list_max_score score l) := by
  unfold track_best list_max_score
  rw [track_best_aux_eq]

/-- C7 witness: on scores `[5, 5, 3]` the loop returns the first of the
two tied elements. -/
theorem claim_C7_witness :
    track_best (fun p : Nat × ℚ => p.2) [(1, 5), (2, 5), (3, 3)] = (some (1, 5), 5) := by
  rw [claim_C7_first_seen_tie_break]
  norm_num [list_max_score, first_hit]

/-- C2: for a successful directory search, `find_person` returns
NotFound exactly when the result list is empty, or the best similarity
score over all results and spellings is below the threshold 95, or the
best-scoring result yields no usable "Employee ID"-typed identifier;
otherwise (second conjunct) it returns exactly the best-scoring result's
identity with its filtered affiliations. -/
theorem claim_C2_resolver_not_found :
    (∀ (name : String) (date : Date) (items : List Item) (orgApi : String → OrgResponse),
      find_person name date (.ok items) orgApi = .ok notFoundResult ↔
        (items = [] ∨ (best_pair name items).2 < 95 ∨
          ∀ it sp, (best_pair name items).1 = some (it, sp) →
            isTruthy (firstEmployeeId it) = false))
  ∧ (∀ (name : String) (date : Date) (items : List Item) (orgApi : String → OrgResponse)
      (it : Item) (sp : String),
      items ≠ [] →
      (best_pair name items).1 = some (it, sp) →
      ¬ (best_pair name items).2 < 95 →
      isTruthy (firstEmployeeId it) = true →
      find_person name date (.ok items) orgApi =
        (filter_affiliations orgApi it date).map
          (fun r => ⟨firstEmployeeId it, some it.uuid, r.1, r.2⟩)) := by
  constructor
  · intro name date items orgApi
    rw [find_person_ok_unfold]
    cases items with
    | nil => simp
    | cons x xs =>
        simp only [List.isEmpty_cons, Bool.false_eq_true, if_false]
        rcases hb : (best_pair name (x :: xs)).1 with _ | ⟨it, sp⟩
        · refine iff_of_true rfl (Or.inr (Or.inl ?_))
          rw [best_pair_fst_none name _ hb]
          norm_num
        · simp only [hb]
          by_cases hlt : (best_pair name (x :: xs)).2 < 95
          · rw [if_pos hlt]
            exact iff_of_true rfl (Or.inr (Or.inl hlt))
          · rw [if_neg hlt]
            by_cases htr : isTruthy (firstEmployeeId it) = true
            · rw [if_pos htr]
              have hR : ¬((x :: xs : List Item) = [] ∨ (best_pair name (x :: xs)).2 < 95 ∨
                  ∀ it2 sp2, (some (it, sp) : Option (Item × String)) = some (it2, sp2) →
                    isTruthy (firstEmployeeId it2) = false) := by
                intro hRHS
                rcases hRHS with h1 | h2 | h3
                · exact List.cons_ne_nil x xs h1
                · exact hlt h2
                · rw [h3 it sp rfl] at htr
                  exact Bool.false_ne_true htr
              rcases hfa : filter_affiliations orgApi it date with e | ⟨affs, nm⟩
              · exact iff_of_false (fun hEq => Except.noConfusion hEq) hR
              · exact iff_of_false
                  (fun hEq => truthy_ne_notFound _ htr _ _ _ (Except.ok.inj hEq)) hR
            · have htr2 : isTruthy (firstEmployeeId it) = false :=
                Bool.eq_false_iff.mpr htr
              rw [if_neg htr]
              refine iff_of_true rfl (Or.inr (Or.inr ?_))
              intro it2 sp2 h2
              have h3 := Option.some.inj h2
              have h4 : it = it2 := congrArg Prod.fst h3
              rw [← h4]
              exact htr2
  · intro name date items orgApi it sp hne hb hlt htr
    rw [find_person_ok_unfold]
    have hie : items.isEmpty = false := by
      cases items with
      | nil => exact absurd rfl hne
      | cons y ys => rfl
    rw [hie]
    simp only [Bool.false_eq_true, if_false, hb]
    rw [if_neg hlt, if_pos htr]
    rcases hfa : filter_affiliations orgApi it date with e | ⟨affs, nm⟩ <;> rfl

/-- C2 witness: "Jon Smith" against the spelling "John Smith" scores
1800/19 < 95 and resolves to NotFound; against the exact spelling
"Jon Smith" it scores 100 and yields that identity with its
Employee ID. -/
theorem claim_C2_witness :
    find_person "Jon Smith" ⟨2024, 1, 1⟩ (.ok [jsItem]) exOrgApi = .ok notFoundResult ∧
    find_person "Jon Smith" ⟨2024, 1, 1⟩ (.ok [jsItemExact]) exOrgApi =
      .ok ⟨some "E1", some "u-1", [], ""⟩ := by
  have hpn1 : possible_names jsItem = ["John Smith"] := by decide
  have hpn2 : possible_names jsItemExact = ["Jon Smith"] := by decide
  have hb1 := best_pair_single "Jon Smith" jsItem "John Smith" hpn1
    (by rw [fuzz_jon_john]; norm_num)
  have hb2 := best_pair_single "Jon Smith" jsItemExact "Jon Smith" hpn2
    (by rw [fuzz_jon_jon]; norm_num)
  constructor
  · apply (claim_C2_resolver_not_found.1 _ _ _ _).mpr
    refine Or.inr (Or.inl ?_)
    rw [congrArg Prod.snd hb1, fuzz_jon_john]
    norm_num
  · have h := claim_C2_resolver_not_found.2 "Jon Smith" ⟨2024, 1, 1⟩ [jsItemExact]
      exOrgApi jsItemExact "Jon Smith" (by simp)
      (by rw [hb2])
      (by rw [congrArg Prod.snd hb2, fuzz_jon_jon]; norm_num)
      (by rfl)
    rw [h]
    rfl

/-- C5: when every organization lookup answers (no transport failure),
the affiliation filter succeeds and keeps exactly the associations whose
validity interval contains the reference date, a missing end date being
the far-future default. -/
theorem claim_C5_affiliation_window :
    ∀ (data : Item) (date : Date) (orgApi : String → OrgResponse),
    (∀ u, orgApi u ≠ OrgResponse.networkError) →
    ∃ out : List Affiliation × String,
      filter_affiliations orgApi data date = .ok out ∧
      out.1.map (fun a => a.orgUuid) =
        (data.staffOrganizationAssociations.filter (fun o =>
          dateLE o.period.startDate date &&
          dateLE date (o.period.endDate.getD farFuture))).map (fun o => o.orgUuid) := by
  intro data date orgApi h
  obtain ⟨out, h1, h2⟩ :=
    filter_affiliations_aux_spec orgApi date h data.staffOrganizationAssociations [] ""
  exact ⟨out, h1, by simpa using h2⟩

/-- C5 witness: associations X (2020-01-01..2021-01-01) and Y
(2021-01-02.., no end): as-of 2020-06-01 keeps exactly X, as-of
2022-01-01 keeps exactly Y. -/
theorem claim_C5_witness :
    (∃ out : List Affiliation × String,
      filter_affiliations exOrgApi exItemAff ⟨2020, 6, 1⟩ = .ok out ∧
      out.1.map (fun a => a.orgUuid) = ["X"]) ∧
    (∃ out : List Affiliation × String,
      filter_affiliations exOrgApi exItemAff ⟨2022, 1, 1⟩ = .ok out ∧
      out.1.map (fun a => a.orgUuid) = ["Y"]) := by
  constructor
  · obtain ⟨out, h1, h2⟩ := claim_C5_affiliation_window exItemAff ⟨2020, 6, 1⟩ exOrgApi
      (fun u hc => OrgResponse.noConfusion hc)
    exact ⟨out, h1, h2.trans (by decide)⟩
  · obtain ⟨out, h1, h2⟩ := claim_C5_affiliation_window exItemAff ⟨2022, 1, 1⟩ exOrgApi
      (fun u hc => OrgResponse.noConfusion hc)
    exact ⟨out, h1, h2.trans (by decide)⟩

/-- C9 (amended): a non-success organization-lookup response is
classified `("Unknown", "Unknown")` and the affiliation filter keeps
processing (it never raises as long as every lookup returns a
response); a raised timeout/connection error, by contrast, propagates
uncaught (see the counterexample). -/
theorem claim_C9_amended :
    (∀ (orgApi : String → OrgResponse) (u : String) (s : Nat) (uri nm : String),
        orgApi u = OrgResponse.response s uri nm → s ≠ 200 →
        get_org_type orgApi u = .ok ("Unknown", "Unknown"))
  ∧ (∀ (orgApi : String → OrgResponse) (data : Item) (date : Date),
        (∀ u, orgApi u ≠ OrgResponse.networkError) →
        ∀ e : Unit, filter_affiliations orgApi data date ≠ .error e) := by
  constructor
  · intro orgApi u s uri nm hresp hs
    rw [get_org_type_response orgApi u s uri nm hresp, if_neg hs]
  · intro orgApi data date h e
    obtain ⟨out, h1, _⟩ :=
      filter_affiliations_aux_spec orgApi date h data.staffOrganizationAssociations [] ""
    intro hcontra
    rw [show filter_affiliations orgApi data date =
        filter_affiliations_aux orgApi date data.staffOrganizationAssociations [] ""
      from rfl, h1] at hcontra
    exact Except.noConfusion hcontra

/-- C9 counterexample: a timeout/connection error during the
organization lookup of a kept association makes `filter_affiliations`
raise (propagate the exception) instead of classifying the association
as "Unknown" and continuing. -/
theorem claim_C9_cex :
    filter_affiliations neOrgApi exItemAff ⟨2020, 6, 1⟩ = Except.error () := rfl

/-- C9 witness: a 404 lookup yields the "Unknown" classification, and a
filter run whose lookups all answer does not raise. -/
theorem claim_C9_witness :
    get_org_type (fun _ => OrgResponse.response 404 "/x/003abc" "Dept") "X" =
      .ok ("Unknown", "Unknown") ∧
    filter_affiliations exOrgApi exItemAff ⟨2020, 6, 1⟩ ≠ Except.error () := by
  constructor
  · exact claim_C9_amended.1 _ "X" 404 "/x/003abc" "Dept" rfl (by decide)
  · exact claim_C9_amended.2 exOrgApi exItemAff ⟨2020, 6, 1⟩
      (fun u hc => OrgResponse.noConfusion hc) ()

/-- C3 (amended): a store response with a non-success status makes the
duplicate check fail open (`False`); an unreachable store (raised
transport exception), by contrast, propagates uncaught (see the
counterexample). -/
theorem claim_C3_amended :
    ∀ (title : String) (persons : List ResolvedPerson) (date : Date)
      (status : Nat) (items : List PriorItem),
      status ≠ 200 →
      check_duplicates title persons date (.response status items) = .ok false := by
  intro title persons date status items hs
  rw [check_duplicates_response, if_pos hs]

/-- C3 counterexample: an unreachable store makes `check_duplicates`
raise instead of returning `False`. -/
theorem claim_C3_cex :
    check_duplicates "t" [] ⟨2024, 1, 1⟩ StoreResponse.networkError =
      Except.error () := rfl

/-- C3 witness: a 503 response fails open. -/
theorem claim_C3_witness :
    check_duplicates "t" [] ⟨2024, 1, 1⟩ (StoreResponse.response 503 []) =
      Except.ok false :=
  claim_C3_amended "t" [] ⟨2024, 1, 1⟩ 503 [] (by decide)

/-- C6: on a successful store response the article is flagged as a
duplicate exactly when some returned record matches on all three of:
canonicalized titles, date portion, and at least one shared person
identifier. -/
theorem claim_C6_duplicate_conditions :
    ∀ (title : String) (persons : List ResolvedPerson) (date : Date)
      (items : List PriorItem),
      check_duplicates title persons date (.response 200 items) = .ok true ↔
        ∃ item ∈ items,
          escape_pure_text title = escape_pure_text (lowerStr item.titleValue) ∧
          beforeT item.startDate = dateStrftime date ∧
          ∃ p ∈ persons, p.1 ∈ prior_person_ids item := by
  intro title persons date items
  rw [check_duplicates_response, if_neg (by simp), Except.ok.injEq]
  simp only [is_dup_item, List.any_eq_true, Bool.and_eq_true, beq_iff_eq,
    List.elem_iff]
  constructor
  · rintro ⟨item, hmem, ⟨⟨ht, hd⟩, p, hpmem, hp⟩⟩
    exact ⟨item, hmem, ht, hd, p, hpmem, hp⟩
  · rintro ⟨item, hmem, ht, hd, p, hpmem, hp⟩
    exact ⟨item, hmem, ⟨⟨ht, hd⟩, p, hpmem, hp⟩⟩

/-- C6 witness: equal canonical titles, equal dates and a shared person
identifier flag the duplicate. -/
theorem claim_C6_witness :
    check_duplicates "Hello" [("P1", none, "Ann", [])] ⟨2024, 3, 5⟩
      (.response 200 [exPriorItem]) = .ok true := by
  apply (claim_C6_duplicate_conditions _ _ _ _).mpr
  exact ⟨exPriorItem, by simp, by decide, by decide,
    ("P1", none, "Ann", []), by simp, by decide⟩

/-- C4 counterexample: the dedup key is order-sensitive, so two
candidate names resolving to the same identity `"P1"` with the same
affiliation SET listed in opposite orders produce TWO resolved
entries — the set-level `(identity_id, frozenset(affiliation_set))`
invariant does not hold for the code. -/
theorem claim_C4_cex :
    resolve_persons exFindPermuted ["Ann Smith", "A. Smith"] ⟨2024, 1, 1⟩ =
      .ok ([("P1", some "U1", "Ann Smith", [aff1, aff2]),
            ("P1", some "U1", "A. Smith", [aff2, aff1])], []) ∧
    ([aff1, aff2] : List Affiliation).Perm [aff2, aff1] := by
  exact ⟨rfl, by decide⟩

/-- C4 (amended): on a successful batch resolution every resolved entry
has a non-empty affiliation list, and no two resolved entries share the
code's dedup key `(person_id, affiliation list with each dict as an
item-set, kept in list order)` — so the same person resolved twice with
the identical affiliation LIST collapses to one entry, while permuted
affiliation lists for the same identity are not deduplicated; and
(second conjunct) a person found with zero date-valid affiliations is
reported as an unresolved name instead. -/
theorem claim_C4_batch_invariants :
    (∀ (find : String → Date → Except Unit FindResult) (names : List String)
        (date : Date) (outR : List ResolvedPerson) (outE : List String),
      resolve_persons find names date = .ok (outR, outE) →
      (∀ p ∈ outR, p.2.2.2 ≠ []) ∧
        (outR.map (fun p => dedup_key p.1 p.2.2.2)).Nodup)
  ∧ (∀ (find : String → Date → Except Unit FindResult) (n : String) (date : Date)
        (r : FindResult),
      find (pyStrip n) date = .ok r → r.affiliations = [] →
      resolve_persons find [n] date = .ok ([], [pyStrip n])) := by
  constructor
  · intro find names date outR outE h
    exact resolve_persons_aux_inv find date names [] [] [] outR outE h
      (by simp) List.nodup_nil
  · intro find n date r hfind haff
    unfold resolve_persons
    rw [resolve_persons_aux_step_ok find date n [] [] [] [] r hfind]
    have hc : (isTruthy r.employeeId && !r.affiliations.isEmpty) = false := by
      rw [haff]
      simp
    rw [hc]
    rfl

/-- C4 witness: resolving the same person twice yields one entry with a
duplicate-free key list; a person with an empty affiliation list lands
in the unresolved list. -/
theorem claim_C4_witness :
    (([("P1", some "U1", "Ann Smith", [⟨"org1", "Organization", "Uni"⟩])] :
        List ResolvedPerson).map (fun p => dedup_key p.1 p.2.2.2)).Nodup ∧
    resolve_persons exFindNoAff ["Carl Jones"] ⟨2024, 1, 1⟩ =
      .ok ([], ["Carl Jones"]) := by
  constructor
  · exact (claim_C4_batch_invariants.1 exFind ["Ann Smith", " Ann Smith ", "Bob"]
      ⟨2024, 1, 1⟩
      [("P1", some "U1", "Ann Smith", [⟨"org1", "Organization", "Uni"⟩])]
      ["Bob"] rfl).2
  · exact claim_C4_batch_invariants.2 exFindNoAff "Carl Jones" ⟨2024, 1, 1⟩
      ⟨some "P2", some "U2", [], ""⟩ rfl rfl

/-- C8: the extractor's candidate-name output (from the union of
heuristic outputs onward, over any raw candidate list and any configured
cleanup) never contains a single-token name whose token appears
case-insensitively as a token of another returned multi-word name. -/
theorem claim_C8_single_token_suppression :
    ∀ (subst : String → String) (raw : List String) (n m t : String),
    n ∈ extract_persons_post subst raw →
    m ∈ extract_persons_post subst raw →
    pySplit n = [t] →
    (pySplit m).length > 1 →
    ∀ p ∈ pySplit m, lowerStr p ≠ lowerStr t := by
  intro subst raw n m t hn hm hsplit hlen p hp hcontra
  unfold extract_persons_post final_suppression at hn hm
  rcases foldl_keep_mem _ _ _ _ hn with h1 | ⟨hnL, hkeep⟩
  · exact absurd h1 (List.not_mem_nil n)
  rcases foldl_keep_mem _ _ _ _ hm with h1 | ⟨hmL, _⟩
  · exact absurd h1 (List.not_mem_nil m)
  have hmFull : m ∈ (clean_names subst (first_suppression raw)).filter
      (fun x => (pySplit x).length > 1) :=
    List.mem_filter.mpr ⟨hmL, by simpa using hlen⟩
  unfold final_keep at hkeep
  rw [hsplit] at hkeep
  have hsup : single_token_suppressed
      ((clean_names subst (first_suppression raw)).filter
        (fun x => (pySplit x).length > 1)) t = false := by
    simpa using hkeep
  unfold single_token_suppressed at hsup
  have h2 := (List.any_eq_false.mp hsup) m hmFull
  have h2f : ((pySplit m).any fun q => lowerStr q == lowerStr t) = false :=
    Bool.eq_false_iff.mpr h2
  have h3 := (List.any_eq_false.mp h2f) p hp
  rw [hcontra] at h3
  simp at h3

/-- C8 witness: with candidates ["Dina Siegel", "Siegel", "Bob"], the
surviving single token "Bob" shares no token with the surviving
multi-word "Dina Siegel". -/
theorem claim_C8_witness :
    lowerStr "Dina" ≠ lowerStr "Bob" :=
  claim_C8_single_token_suppression id ["Dina Siegel", "Siegel", "Bob"]
    "Bob" "Dina Siegel" "Bob" (by decide) (by decide) (by decide) (by decide)
    "Dina" (by decide)

/-- C10: the XML duplicate-removal pass keys on
`(lowercased title, person-ID tuple)`: the emitted clippings are a
subsequence of the built ones with pairwise-distinct keys covering every
input article's key, and (second conjunct) two articles equal up to
their URL collapse to the first one. -/
theorem claim_C10_xml_dedup_key :
    (∀ articles : List Article,
      ((build_xml articles).map clip_key).Nodup ∧
      (build_xml articles).Sublist (articles.map make_single_clipping) ∧
      ∀ a ∈ articles, ∃ c ∈ build_xml articles,
        clip_key c = clip_key (make_single_clipping a))
  ∧ (∀ a b : Article, a.title = b.title → a.person_resolved = b.person_resolved →
      build_xml [a, b] = [make_single_clipping a]) := by
  constructor
  · intro articles
    refine ⟨(rd_aux_keys _ []).1, rd_aux_sublist _ [], ?_⟩
    intro a ha
    rcases rd_aux_cover (articles.map make_single_clipping) []
        (make_single_clipping a) (List.mem_map_of_mem _ ha) with h1 | h1
    · exact absurd h1 (List.not_mem_nil _)
    · exact h1
  · intro a b ht hp
    have hkey : clip_key (make_single_clipping b) = clip_key (make_single_clipping a) := by
      unfold clip_key make_single_clipping
      rw [← ht, ← hp]
    unfold build_xml remove_duplicates
    rw [List.map_cons, List.map_cons, List.map_nil]
    unfold remove_duplicates_aux
    rw [if_neg (List.not_mem_nil _)]
    unfold remove_duplicates_aux
    rw [if_pos (show clip_key (make_single_clipping b) ∈
      [clip_key (make_single_clipping a)] by rw [hkey]; exact List.mem_cons_self _ _)]
    rfl

/-- C10 witness: two clippings identical except for the URL collapse to
one record. -/
theorem claim_C10_witness :
    build_xml [cexArticle1, cexArticle4] = [make_single_clipping cexArticle1] :=
  claim_C10_xml_dedup_key.2 cexArticle1 cexArticle4 rfl rfl

/-- C1 counterexample: two articles with the same title "T" and the same
URL "U" but different resolved person IDs do NOT collapse — both records
survive the suppression pass, so literal `(title, URL)` is not the dedup
key. -/
theorem claim_C1_cex :
    cexArticle1.title = cexArticle2.title ∧ cexArticle1.url = cexArticle2.url ∧
    (build_xml [cexArticle1, cexArticle2]).length = 2 := by
  refine ⟨rfl, rfl, ?_⟩
  decide

/-- C1 (amended): the second suppression pass deduplicates clippings by
`(lowercased title, resolved person-ID tuple)` — not by `(title, URL)`
— keeping the first occurrence of each key. -/
theorem claim_C1_batch_dedup :
    ∀ articles : List Article,
    build_xml articles = keep_first_occurrences (articles.map make_single_clipping) := by
  intro articles
  unfold build_xml remove_duplicates keep_first_occurrences
  have h := rd_aux_eq_fold (articles.map make_single_clipping) [] [] (by simp)
  simpa using h

/-- C1 witness: case-folded titles with equal person IDs collapse to
the first occurrence even across different URLs. -/
theorem claim_C1_witness :
    build_xml [cexArticle1, cexArticle3] = [make_single_clipping cexArticle1] :=
  (claim_C1_batch_dedup [cexArticle1, cexArticle3]).trans (by decide)

end PressPure
